import Mathlib

/-!
Verification of the literm server's path-sandbox resolver, session store,
terminal resize protocol, watch bridge and login handler.

Paths are modelled in parsed form: a `RustPath` is the component
decomposition of a Rust `PathBuf` (`absolute` records a leading root
separator, `comps` the remaining components in order); path text entering
and leaving the code is identified with its parsed form.
The filesystem is a finite association of absolute component lists to
entries (file, directory, or symlink); `canonicalize` models
`std::fs::canonicalize`, fully dereferencing symlinks component by
component, requiring every looked-up path to exist, with a fuel budget
standing in for the kernel's symlink-loop limit (`ELOOP`).  Clocks and
random identifiers are passed as explicit parameters.
-/

namespace LiteTerm

/-- A parsed path: `absolute` marks a leading `/`; `comps` the components. -/
structure RustPath where
  absolute : Bool
  comps : List String
deriving DecidableEq, Repr

/-- `PathBuf::push`: pushing an absolute path replaces the whole path. -/
def RustPath.push (p q : RustPath) : RustPath :=
  if q.absolute then q else ⟨p.absolute, p.comps ++ q.comps⟩

/-- `Path::starts_with`: component-wise prefix test.  Every path starts
with the empty relative path; otherwise absoluteness must agree and the
base components must be a component prefix. -/
def RustPath.startsWith (p base : RustPath) : Bool :=
  (!base.absolute && base.comps.isEmpty) ||
    (p.absolute == base.absolute && base.comps.isPrefixOf p.comps)

/-- `Path::strip_prefix` followed by conversion to an owned relative path:
drops the base components when `p` starts with `base`. -/
def RustPath.stripBase (p base : RustPath) : Option RustPath :=
  if !base.absolute && base.comps.isEmpty then some p
  else if p.absolute = base.absolute && base.comps.isPrefixOf p.comps then
    some ⟨false, p.comps.drop base.comps.length⟩
  else none

/-- A filesystem object: regular file, directory, or symbolic link.  A
symlink stores whether its target is absolute, and the target components. -/
inductive Entry
  | file
  | dir
  | symlink (absolute : Bool) (target : List String)
deriving DecidableEq, Repr

/-- A filesystem: association of absolute paths (component lists) to entries. -/
def FS := List (List String × Entry)

/-- Look up the entry at an absolute path. -/
def FS.lookup (fs : FS) (p : List String) : Option Entry :=
  (List.find? (fun e => decide (e.1 = p)) fs).map (fun e => e.2)

/-- Error kinds of `std::io::Error` relevant to canonicalization:
`NotFound` for a missing component, `FilesystemLoop` for `ELOOP`. -/
inductive CanonErr
  | notFound
  | filesystemLoop
deriving DecidableEq, Repr

/-- One-pass POSIX path resolution (`realpath` semantics): walk the
components left to right, skipping `""` and `"."`, popping on `".."`,
requiring each visited path to exist, and splicing in symlink targets
(absolute targets restart at the root).  Fuel bounds the walk and models
the kernel's symlink-loop limit. -/
def canonGo (fs : FS) : Nat → List String → List String → Except CanonErr (List String)
  | _, cur, [] => .ok cur
  | 0, _, _ :: _ => .error .filesystemLoop
  | fuel + 1, cur, c :: rest =>
    if c = "" ∨ c = "." then canonGo fs fuel cur rest
    else if c = ".." then canonGo fs fuel cur.dropLast rest
    else
      match FS.lookup fs (cur ++ [c]) with
      | none => .error .notFound
      | some (.symlink ab target) => canonGo fs fuel (if ab then [] else cur) (target ++ rest)
      | some _ => canonGo fs fuel (cur ++ [c]) rest

/-- Resolution budget standing in for the kernel's symlink-loop limit. -/
def canonFuel : Nat := 64

/-- `std::fs::canonicalize` on an absolute path (the resolver only ever
canonicalizes absolute candidates, since the stored root is itself
canonical and hence absolute). -/
def canonicalize (fs : FS) (p : RustPath) : Except CanonErr RustPath :=
  if p.absolute then (canonGo fs canonFuel [] p.comps).map (fun cs => ⟨true, cs⟩)
  else .error .notFound

/-- The error type of the server (`error.rs`), restricted to the variants
the resolver and handlers produce. -/
inductive AppError
  | Io (kind : CanonErr)
  | Unauthorized
  | BadRequest (msg : String)
  | Internal (msg : String)
deriving DecidableEq, Repr

/-- HTTP status selected by `AppError::into_response`. -/
def AppError.statusCode : AppError → Nat
  | .Unauthorized => 401
  | .BadRequest _ => 400
  | .Io _ => 500
  | .Internal _ => 500

/-- `FsService::new`: canonicalize the configured root directory. -/
def FsService.new (fs : FS) (root : RustPath) : Except CanonErr RustPath :=
  canonicalize fs root

/-- The candidate path built by `resolve_path`: the root, with the
relative path pushed onto it when the latter is non-empty. -/
def joinCandidate (root relative : RustPath) : RustPath :=
  if relative = ⟨false, []⟩ then root else root.push relative

/-- `FsService::resolve_path`: join the user path to the root,
canonicalize, and reject the result unless it starts with the root. -/
def resolve_path (fs : FS) (root : RustPath) (relative : RustPath) : Except AppError RustPath :=
  match canonicalize fs (joinCandidate root relative) with
  | .error k => .error (.Io k)
  | .ok canonical =>
    if !canonical.startsWith root then .error (.BadRequest "path escapes root_dir")
    else .ok canonical

/-- `FsService::to_relative`: the path of `absolute` relative to the root,
or `none` if it lies outside. -/
def to_relative (root : RustPath) (absolute : RustPath) : Option RustPath :=
  absolute.stripBase root

/-! ## Basic facts about the resolver -/

deriving instance DecidableEq for Except

theorem canonicalize_ok_absolute {fs : FS} {p P : RustPath}
    (h : canonicalize fs p = .ok P) : P.absolute = true := by
  unfold canonicalize at h
  split at h
  · cases hg : canonGo fs canonFuel [] p.comps <;> rw [hg] at h <;>
      simp [Except.map] at h
    exact h.symm ▸ rfl
  · cases h

theorem startsWith_absolute {p base : RustPath} (h : p.startsWith base = true)
    (hb : base.absolute = true) : p.absolute = true ∧ base.comps <+: p.comps := by
  unfold RustPath.startsWith at h
  rw [hb] at h
  simp only [Bool.not_true, Bool.false_and, Bool.false_or, Bool.and_eq_true,
    beq_iff_eq] at h
  exact ⟨h.1, List.isPrefixOf_iff_prefix.mp h.2⟩

/-- C1: sandbox containment.  Whenever `resolve_path` succeeds, the
returned path is absolute, is the symlink-resolved (canonicalized) form of
the joined candidate, and starts with — i.e. is equal to or a descendant
of — the stored (canonical) root. -/
theorem sandbox_containment (fs : FS) (root relative P : RustPath)
    (h : resolve_path fs root relative = .ok P) :
    P.absolute = true ∧ P.startsWith root = true ∧
    (root.absolute = true → root.comps <+: P.comps) ∧
    canonicalize fs (joinCandidate root relative) = .ok P := by
  unfold resolve_path at h
  cases hc : canonicalize fs (joinCandidate root relative) with
  | error k => rw [hc] at h; cases h
  | ok canonical =>
    rw [hc] at h
    dsimp only at h
    split at h
    · cases h
    · next hs =>
      rw [Bool.not_eq_true', Bool.not_eq_false] at hs
      cases h
      refine ⟨canonicalize_ok_absolute hc, hs, ?_, rfl⟩
      intro hroot
      exact (startsWith_absolute hs hroot).2

/-- C1 witness: a concrete run inside a root `/box` holding `a.txt`. -/
theorem sandbox_containment_witness :
    RustPath.absolute ⟨true, ["box", "a.txt"]⟩ = true ∧
    RustPath.startsWith ⟨true, ["box", "a.txt"]⟩ ⟨true, ["box"]⟩ = true ∧
    (RustPath.absolute ⟨true, ["box"]⟩ = true →
      ["box"] <+: ["box", "a.txt"]) ∧
    canonicalize [(["box"], .dir), (["box", "a.txt"], .file)]
      (joinCandidate ⟨true, ["box"]⟩ ⟨false, ["a.txt"]⟩) =
      .ok ⟨true, ["box", "a.txt"]⟩ :=
  sandbox_containment [(["box"], .dir), (["box", "a.txt"], .file)]
    ⟨true, ["box"]⟩ ⟨false, ["a.txt"]⟩ ⟨true, ["box", "a.txt"]⟩ (by decide)

/-- C2 (amended): when the canonicalized candidate escapes the root the
resolver fails with `BadRequest "path escapes root_dir"` (an HTTP 400),
and a canonicalization failure (in particular `NotFound` for a missing
path) is propagated as the corresponding IO error. -/
theorem resolve_path_error_cases (fs : FS) (root relative : RustPath) :
    (∀ P, canonicalize fs (joinCandidate root relative) = .ok P →
      P.startsWith root = false →
      resolve_path fs root relative = .error (.BadRequest "path escapes root_dir")) ∧
    (∀ k, canonicalize fs (joinCandidate root relative) = .error k →
      resolve_path fs root relative = .error (.Io k)) ∧
    AppError.statusCode (.BadRequest "path escapes root_dir") = 400 := by
  refine ⟨?_, ?_, rfl⟩
  · intro P hc hs
    unfold resolve_path
    rw [hc]
    dsimp only
    rw [hs]
    rfl
  · intro k hc
    unfold resolve_path
    rw [hc]

/-- C2 witness: instantiation on a concrete filesystem where
`../etc/passwd` escapes the root `/box` and `missing.txt` does not exist. -/
theorem resolve_path_error_cases_witness :
    resolve_path [(["box"], .dir), (["etc"], .dir), (["etc", "passwd"], .file)]
      ⟨true, ["box"]⟩ ⟨false, ["..", "etc", "passwd"]⟩ =
      .error (.BadRequest "path escapes root_dir") ∧
    resolve_path [(["box"], .dir)] ⟨true, ["box"]⟩ ⟨false, ["missing.txt"]⟩ =
      .error (.Io .notFound) :=
  ⟨(resolve_path_error_cases
      [(["box"], .dir), (["etc"], .dir), (["etc", "passwd"], .file)]
      ⟨true, ["box"]⟩ ⟨false, ["..", "etc", "passwd"]⟩).1
      ⟨true, ["etc", "passwd"]⟩ (by decide) (by decide),
   (resolve_path_error_cases [(["box"], .dir)]
      ⟨true, ["box"]⟩ ⟨false, ["missing.txt"]⟩).2.1 .notFound (by decide)⟩

/-- C2 counterexample: the rejection message produced by the code is
`"path escapes root_dir"`, not `"path escapes root"` as claimed. -/
theorem resolve_path_message_cex :
    resolve_path [(["box"], .dir), (["etc"], .dir), (["etc", "passwd"], .file)]
      ⟨true, ["box"]⟩ ⟨false, ["..", "etc", "passwd"]⟩ =
      .error (.BadRequest "path escapes root_dir") ∧
    ¬ resolve_path [(["box"], .dir), (["etc"], .dir), (["etc", "passwd"], .file)]
      ⟨true, ["box"]⟩ ⟨false, ["..", "etc", "passwd"]⟩ =
      .error (.BadRequest "path escapes root") := by
  constructor
  · decide
  · decide

/-! ## Session store (`session.rs`)

The store is a map from session-id text to an expiry instant; instants are
modelled as naturals on a monotonic clock.  Fresh ids and the current
instant are passed as explicit parameters. -/

abbrev SessionMap := List (String × Nat)

/-- `HashMap::insert`: bind `id` to `v`, replacing any existing binding. -/
def SessionMap.insert (m : SessionMap) (id : String) (v : Nat) : SessionMap :=
  (id, v) :: m.filter (fun e => decide (e.1 ≠ id))

/-- `HashMap::get(id).is_some()`: find the binding for `id`. -/
def SessionMap.getEntry (m : SessionMap) (id : String) : Option (String × Nat) :=
  m.find? (fun e => decide (e.1 = id))

/-- `SessionStore::create_session`: insert `id ↦ now + ttl`, return the id. -/
def create_session (ttl : Nat) (m : SessionMap) (id : String) (now : Nat) :
    SessionMap × String :=
  (m.insert id (now + ttl), id)

/-- `SessionStore::prune_expired`: retain entries whose expiry is in the
future (`expires_at > now`). -/
def prune_expired (m : SessionMap) (now : Nat) : SessionMap :=
  m.filter (fun e => decide (now < e.2))

/-- `SessionStore::validate`: prune all expired entries, then report
whether `id` is still present; returns the pruned map and the bit. -/
def validate (m : SessionMap) (id : String) (now : Nat) : SessionMap × Bool :=
  let pruned := prune_expired m now
  (pruned, (pruned.getEntry id).isSome)

/-- C3: session TTL.  For a token created at `t0` with TTL `ttl` (and not
removed since), `validate` at instant `now` reports true exactly when
`now < t0 + ttl`; in particular it is true strictly before the deadline
and false strictly after.  Moreover `validate` never reports true unless
the pruned map still holds the id with an unexpired expiry. -/
theorem session_ttl (ttl t0 now : Nat) (m : SessionMap) (id : String) :
    ((validate (create_session ttl m id t0).1 id now).2 = true ↔ now < t0 + ttl) ∧
    (∀ m' : SessionMap, (validate m' id now).2 = true →
      ∃ e, now < e ∧ (prune_expired m' now).getEntry id = some (id, e)) := by
  constructor
  · unfold validate create_session SessionMap.insert prune_expired SessionMap.getEntry
    dsimp only
    by_cases hlt : now < t0 + ttl
    · simp [List.filter, hlt, List.find?]
    · constructor
      · intro h
        exfalso
        rw [Option.isSome_iff_exists] at h
        obtain ⟨a, ha⟩ := h
        have hmem := List.mem_of_find?_eq_some ha
        have hp := List.find?_some ha
        simp only [decide_eq_true_eq] at hp
        have h2 := List.mem_filter.mp hmem
        rcases List.mem_cons.mp h2.1 with hhead | htail
        · have hexp := h2.2
          rw [hhead] at hexp
          simp only [decide_eq_true_eq] at hexp
          exact hlt hexp
        · have hne := (List.mem_filter.mp htail).2
          simp only [decide_eq_true_eq] at hne
          exact hne hp
      · intro h
        exact absurd h hlt
  · intro m' h
    unfold validate at h
    dsimp only at h
    rw [Option.isSome_iff_exists] at h
    obtain ⟨a, ha⟩ := h
    have hmem := List.mem_of_find?_eq_some ha
    have hp := List.find?_some ha
    simp only [SessionMap.getEntry, decide_eq_true_eq] at hp
    have hfil := (List.mem_filter.mp hmem).2
    simp only [decide_eq_true_eq] at hfil
    refine ⟨a.2, hfil, ?_⟩
    rw [show ((id, a.2) : String × Nat) = a by rw [← hp]]
    exact ha

/-- C3 witness: a token created at instant 100 with TTL 600 validates at
instant 400, and a store holding an unexpired entry yields it. -/
theorem session_ttl_witness :
    ((validate (create_session 600 [] "tok" 100).1 "tok" 400).2 = true ↔
      400 < 100 + 600) ∧
    (∃ e, 400 < e ∧
      (prune_expired [("tok", 700)] 400).getEntry "tok" = some ("tok", e)) :=
  ⟨(session_ttl 600 100 400 [] "tok").1,
   (session_ttl 600 100 400 [] "tok").2 [("tok", 700)] (by decide)⟩

/-! ## PTY size and the terminal resize frame (`pty.rs`, `ws/terminal.rs`) -/

structure PtySize where
  rows : Nat
  cols : Nat
  pixel_width : Nat
  pixel_height : Nat
deriving DecidableEq, Repr

/-- `PtySession::resize`: apply the requested size with both dimensions
clamped to at least 1 and zero pixel dimensions. -/
def PtySession.resize (rows cols : Nat) : PtySize :=
  ⟨max rows 1, max cols 1, 0, 0⟩

/-- The effect of one client binary frame on the PTY size in
`handle_socket`: a `0x02` frame of length ≥ 5 parses rows and cols as
big-endian u16 at offsets 1 and 3 and resizes; a `0x01` frame writes input
(no size change); everything else is ignored. -/
def handle_binary_frame (st : PtySize) (bytes : List Nat) : PtySize :=
  match bytes with
  | [] => st
  | b0 :: _ =>
    if b0 = 0x01 then st
    else if b0 = 0x02 then
      if 5 ≤ bytes.length then
        PtySession.resize (bytes.getD 1 0 * 256 + bytes.getD 2 0)
          (bytes.getD 3 0 * 256 + bytes.getD 4 0)
      else st
    else st

/-- C4: resize totality.  Any `0x02` frame of length ≥ 5 applies a resize
whose rows and cols are the big-endian fields clamped to a minimum of 1
(so both are ≥ 1 and zero encodes as 1), and any shorter `0x02` frame is
silently ignored, leaving the size unchanged. -/
theorem resize_totality (st : PtySize) (bytes : List Nat)
    (h0 : bytes.headD 0 = 2) :
    (5 ≤ bytes.length →
      handle_binary_frame st bytes =
        ⟨max (bytes.getD 1 0 * 256 + bytes.getD 2 0) 1,
         max (bytes.getD 3 0 * 256 + bytes.getD 4 0) 1, 0, 0⟩ ∧
      1 ≤ (handle_binary_frame st bytes).rows ∧
      1 ≤ (handle_binary_frame st bytes).cols) ∧
    (bytes.length < 5 → handle_binary_frame st bytes = st) := by
  cases bytes with
  | nil => cases h0
  | cons b0 rest =>
    simp only [List.headD_cons] at h0
    subst h0
    constructor
    · intro hlen
      unfold handle_binary_frame
      simp only [show (2 : Nat) ≠ 1 by decide, if_false, if_pos rfl, if_pos hlen,
        PtySession.resize]
      refine ⟨rfl, ?_, ?_⟩ <;> exact Nat.le_max_right _ 1
    · intro hlen
      unfold handle_binary_frame
      have h5 : ¬ 5 ≤ (2 :: rest).length := Nat.not_le.mpr hlen
      simp only [show (2 : Nat) ≠ 1 by decide, if_false, if_pos rfl, if_neg h5]
      simp

/-- C4 witness: a full resize frame requesting 0 rows and 80 cols yields
1 row and 80 cols; a short `0x02` frame leaves the size unchanged. -/
theorem resize_totality_witness :
    (5 ≤ ([2, 0, 0, 0, 80] : List Nat).length →
      handle_binary_frame ⟨24, 80, 0, 0⟩ [2, 0, 0, 0, 80] =
        ⟨max (0 * 256 + 0) 1, max (0 * 256 + 80) 1, 0, 0⟩ ∧
      1 ≤ (handle_binary_frame ⟨24, 80, 0, 0⟩ [2, 0, 0, 0, 80]).rows ∧
      1 ≤ (handle_binary_frame ⟨24, 80, 0, 0⟩ [2, 0, 0, 0, 80]).cols) ∧
    (([2, 0] : List Nat).length < 5 →
      handle_binary_frame ⟨24, 80, 0, 0⟩ [2, 0] = ⟨24, 80, 0, 0⟩) :=
  ⟨(resize_totality ⟨24, 80, 0, 0⟩ [2, 0, 0, 0, 80] (by decide)).1,
   (resize_totality ⟨24, 80, 0, 0⟩ [2, 0] (by decide)).2⟩

/-! ## Canonical paths and the resolve round trip -/

/-- A canonical path: every nonempty component prefix names an existing
non-symlink entry, and no component is `""`, `"."` or `".."`.  This is
exactly the shape `canonGo` produces. -/
def GoodPath (fs : FS) (p : List String) : Prop :=
  (∀ q, q ≠ [] → q <+: p → ∃ e, FS.lookup fs q = some e ∧ ∀ ab t, e ≠ .symlink ab t) ∧
  (∀ c ∈ p, c ≠ "" ∧ c ≠ "." ∧ c ≠ "..")

theorem GoodPath.lnil (fs : FS) : GoodPath fs [] := by
  constructor
  · intro q hq hpre
    exact absurd (List.prefix_nil.mp hpre) hq
  · intro c hc
    cases hc

theorem GoodPath.dropLast {fs : FS} {p : List String} (h : GoodPath fs p) :
    GoodPath fs p.dropLast := by
  constructor
  · intro q hq hpre
    exact h.1 q hq (hpre.trans ( List.dropLast_prefix p))
  · intro c hc
    exact h.2 c (List.mem_of_mem_dropLast hc)

theorem prefix_snoc_cases {α : Type} {q l : List α} {a : α}
    (h : q <+: l ++ [a]) : q <+: l ∨ q = l ++ [a] := by
  obtain ⟨t, ht⟩ := h
  rcases t.eq_nil_or_concat with rfl | ⟨t', b, rfl⟩
  · right
    simpa using ht
  · left
    rw [List.concat_eq_append, ← List.append_assoc] at ht
    have hinj := List.append_inj' ht rfl
    exact ⟨t', hinj.1⟩

theorem GoodPath.snoc {fs : FS} {p : List String} {c : String} {e : Entry}
    (h : GoodPath fs p) (hl : FS.lookup fs (p ++ [c]) = some e)
    (hns : ∀ ab t, e ≠ .symlink ab t)
    (hc : c ≠ "" ∧ c ≠ "." ∧ c ≠ "..") : GoodPath fs (p ++ [c]) := by
  constructor
  · intro q hq hpre
    rcases prefix_snoc_cases hpre with hq' | rfl
    · exact h.1 q hq hq'
    · exact ⟨e, hl, hns⟩
  · intro d hd
    rcases List.mem_append.mp hd with hd | hd
    · exact h.2 d hd
    · rw [List.mem_singleton.mp hd]
      exact hc

/-- Canonicalization only produces canonical paths. -/
theorem canonGo_good (fs : FS) : ∀ fuel cur rem out, GoodPath fs cur →
    canonGo fs fuel cur rem = .ok out → GoodPath fs out := by
  intro fuel
  induction fuel with
  | zero =>
    intro cur rem out hg h
    cases rem with
    | nil =>
      simp only [canonGo, Except.ok.injEq] at h
      exact h ▸ hg
    | cons c r =>
      simp only [canonGo] at h
      cases h
  | succ f ih =>
    intro cur rem out hg h
    cases rem with
    | nil =>
      simp only [canonGo, Except.ok.injEq] at h
      exact h ▸ hg
    | cons c r =>
      simp only [canonGo] at h
      split at h
      · exact ih cur r out hg h
      · split at h
        · exact ih cur.dropLast r out hg.dropLast h
        · next hc1 hc2 =>
          cases hl : FS.lookup fs (cur ++ [c]) with
          | none =>
            rw [hl] at h
            cases h
          | some e =>
            rw [hl] at h
            cases e with
            | symlink ab t =>
              cases ab with
              | false => exact ih cur (t ++ r) out hg (by simpa using h)
              | true => exact ih [] (t ++ r) out (GoodPath.lnil fs) (by simpa using h)
            | file =>
              refine ih (cur ++ [c]) r out ?_ h
              push_neg at hc1
              exact hg.snoc hl (by intro ab t hne; cases hne) ⟨hc1.1, hc1.2, hc2⟩
            | dir =>
              refine ih (cur ++ [c]) r out ?_ h
              push_neg at hc1
              exact hg.snoc hl (by intro ab t hne; cases hne) ⟨hc1.1, hc1.2, hc2⟩

/-- The output of canonicalization is no longer than the starting point
plus the consumed fuel. -/
theorem canonGo_length (fs : FS) : ∀ fuel cur rem out,
    canonGo fs fuel cur rem = .ok out → out.length ≤ cur.length + fuel := by
  intro fuel
  induction fuel with
  | zero =>
    intro cur rem out h
    cases rem with
    | nil =>
      simp only [canonGo, Except.ok.injEq] at h
      subst h
      omega
    | cons c r =>
      simp only [canonGo] at h
      cases h
  | succ f ih =>
    intro cur rem out h
    cases rem with
    | nil =>
      simp only [canonGo, Except.ok.injEq] at h
      subst h
      omega
    | cons c r =>
      simp only [canonGo] at h
      split at h
      · have := ih cur r out h
        omega
      · split at h
        · have := ih cur.dropLast r out h
          have hdl : cur.dropLast.length ≤ cur.length := by
            rw [List.length_dropLast]
            omega
          omega
        · cases hl : FS.lookup fs (cur ++ [c]) with
          | none =>
            rw [hl] at h
            cases h
          | some e =>
            rw [hl] at h
            cases e with
            | symlink ab t =>
              cases ab with
              | false =>
                have := ih cur (t ++ r) out (by simpa using h)
                omega
              | true =>
                have := ih [] (t ++ r) out (by simpa using h)
                simp at this
                omega
            | file =>
              have := ih (cur ++ [c]) r out h
              simp at this
              omega
            | dir =>
              have := ih (cur ++ [c]) r out h
              simp at this
              omega

/-- Canonicalizing a canonical path is the identity (given enough fuel). -/
theorem canonGo_self (fs : FS) : ∀ rem cur fuel, GoodPath fs (cur ++ rem) →
    rem.length ≤ fuel → canonGo fs fuel cur rem = .ok (cur ++ rem) := by
  intro rem
  induction rem with
  | nil =>
    intro cur fuel hg hlen
    simp [canonGo]
  | cons c r ih =>
    intro cur fuel hg hlen
    cases fuel with
    | zero => simp at hlen
    | succ f =>
      have hval := hg.2 c (by simp)
      have hpre : (cur ++ [c]) <+: cur ++ c :: r := by
        refine ⟨r, ?_⟩
        simp
      obtain ⟨e, hl, hns⟩ := hg.1 (cur ++ [c]) (by simp) hpre
      simp only [canonGo]
      rw [if_neg (by simp [hval.1, hval.2.1]), if_neg (by simp [hval.2.2]), hl]
      have hgood' : GoodPath fs ((cur ++ [c]) ++ r) := by
        rw [List.append_assoc]
        simpa using hg
      have hrec := ih (cur ++ [c]) f hgood' (by simp at hlen; omega)
      cases e with
      | symlink ab t => exact absurd rfl (hns ab t)
      | file =>
        rw [hrec]
        simp
      | dir =>
        rw [hrec]
        simp

/-- Re-canonicalizing an output of `canonicalize` is the identity. -/
theorem canonicalize_self {fs : FS} {P : RustPath} (habs : P.absolute = true)
    (hgood : GoodPath fs P.comps) (hlen : P.comps.length ≤ canonFuel) :
    canonicalize fs P = .ok P := by
  unfold canonicalize
  rw [if_pos habs]
  have := canonGo_self fs P.comps [] canonFuel (by simpa using hgood) hlen
  rw [show ([] : List String) ++ P.comps = P.comps from rfl] at this
  rw [this]
  have : (⟨true, P.comps⟩ : RustPath) = P := by
    rw [← habs]
  rw [Except.map, this]

theorem resolve_path_ok_dest {fs : FS} {root relative P : RustPath}
    (h : resolve_path fs root relative = .ok P) :
    canonicalize fs (joinCandidate root relative) = .ok P ∧
    P.startsWith root = true := by
  unfold resolve_path at h
  cases hc : canonicalize fs (joinCandidate root relative) with
  | error k => rw [hc] at h; cases h
  | ok canonical =>
    rw [hc] at h
    dsimp only at h
    split at h
    · cases h
    · next hs =>
      rw [Bool.not_eq_true', Bool.not_eq_false] at hs
      cases h
      exact ⟨rfl, hs⟩

theorem canonicalize_ok_dest {fs : FS} {p P : RustPath}
    (h : canonicalize fs p = .ok P) :
    p.absolute = true ∧ P.absolute = true ∧
    canonGo fs canonFuel [] p.comps = .ok P.comps := by
  unfold canonicalize at h
  split at h
  · next ha =>
    cases hg : canonGo fs canonFuel [] p.comps <;> rw [hg] at h <;>
      simp [Except.map] at h
    subst h
    exact ⟨ha, rfl, rfl⟩
  · cases h

theorem resolve_path_of_canonical {fs : FS} {root r P : RustPath}
    (hcand : joinCandidate root r = P) (hcanon : canonicalize fs P = .ok P)
    (hs : P.startsWith root = true) : resolve_path fs root r = .ok P := by
  unfold resolve_path
  rw [hcand, hcanon]
  dsimp only
  rw [hs]
  simp

/-- C5: resolve round trip.  Whenever `resolve_path` succeeds with `P`,
`to_relative P` is not `none`, and resolving the relative path it returns
succeeds and yields the same `P`. -/
theorem resolve_roundtrip (fs : FS) (root relative P : RustPath)
    (h : resolve_path fs root relative = .ok P) :
    ∃ r, to_relative root P = some r ∧ resolve_path fs root r = .ok P := by
  obtain ⟨hc, hs⟩ := resolve_path_ok_dest h
  obtain ⟨hcabs, hPabs, hgo⟩ := canonicalize_ok_dest hc
  have hgood : GoodPath fs P.comps :=
    canonGo_good fs canonFuel [] _ P.comps (GoodPath.lnil fs) hgo
  have hlen : P.comps.length ≤ canonFuel := by
    have hb := canonGo_length fs canonFuel [] _ P.comps hgo
    simpa using hb
  have hPcanon : canonicalize fs P = .ok P := canonicalize_self hPabs hgood hlen
  have hs' := hs
  unfold RustPath.startsWith at hs'
  rw [Bool.or_eq_true] at hs'
  rcases hs' with h1 | h2
  · have hroot : root = ⟨false, []⟩ := by
      rw [Bool.and_eq_true] at h1
      obtain ⟨ha, hb⟩ := h1
      cases root with
      | mk ab cs =>
        simp only [Bool.not_eq_true'] at ha
        rw [List.isEmpty_iff] at hb
        dsimp only at ha hb
        rw [ha, hb]
    have hne : P ≠ (⟨false, []⟩ : RustPath) := by
      intro he
      rw [he] at hPabs
      cases hPabs
    refine ⟨P, ?_, ?_⟩
    · unfold to_relative RustPath.stripBase
      rw [hroot]
      simp
    · refine resolve_path_of_canonical ?_ hPcanon hs
      unfold joinCandidate RustPath.push
      rw [if_neg hne, if_pos hPabs]
  · rw [Bool.and_eq_true] at h2
    obtain ⟨hab, hpre'⟩ := h2
    rw [beq_iff_eq] at hab
    have hrabs : root.absolute = true := by
      rw [← hab]
      exact hPabs
    have hpre : root.comps <+: P.comps := List.isPrefixOf_iff_prefix.mp hpre'
    obtain ⟨t, ht⟩ := hpre
    have hdrop : P.comps.drop root.comps.length = t := by
      rw [← ht]
      exact List.drop_left root.comps t
    refine ⟨⟨false, t⟩, ?_, ?_⟩
    · unfold to_relative RustPath.stripBase
      rw [if_neg (by simp [hrabs]), if_pos (by simp [hab, hpre'])]
      rw [hdrop]
    · refine resolve_path_of_canonical ?_ hPcanon hs
      unfold joinCandidate RustPath.push
      by_cases hT : (⟨false, t⟩ : RustPath) = ⟨false, []⟩
      · rw [if_pos hT]
        have ht0 : t = [] := congrArg RustPath.comps hT
        cases P with
        | mk pab pcs =>
          cases root with
          | mk rab rcs =>
            dsimp only at hab ht ⊢
            rw [ht0] at ht
            simp only [List.append_nil] at ht
            rw [hab, ht]
      · rw [if_neg hT]
        simp only [show (⟨false, t⟩ : RustPath).absolute = false from rfl,
          Bool.false_eq_true, if_false]
        cases P with
        | mk pab pcs =>
          dsimp only at ht hab ⊢
          rw [hab, ht]

/-- C5 witness: resolving `a/b.txt` inside `/box` and mapping the result
back through `to_relative` resolves to the same path. -/
theorem resolve_roundtrip_witness :
    ∃ r, to_relative ⟨true, ["box"]⟩ ⟨true, ["box", "a", "b.txt"]⟩ = some r ∧
      resolve_path
        [(["box"], .dir), (["box", "a"], .dir), (["box", "a", "b.txt"], .file)]
        ⟨true, ["box"]⟩ r = .ok ⟨true, ["box", "a", "b.txt"]⟩ :=
  resolve_roundtrip
    [(["box"], .dir), (["box", "a"], .dir), (["box", "a", "b.txt"], .file)]
    ⟨true, ["box"]⟩ ⟨false, ["a", "b.txt"]⟩ ⟨true, ["box", "a", "b.txt"]⟩
    (by decide)

/-! ## Watch WebSocket bridge (`ws/system.rs`)

Client path strings are modelled in parsed form; the tracked map is the
per-connection `HashMap<PathBuf, String>` from canonical watched path to
the client-supplied relative path.  The platform watcher is external: its
presence and the outcome of a registration call are explicit booleans. -/

/-- Replies sent on the system WebSocket (JSON payloads in the source). -/
inductive SysReply
  | errorMsg (message : String)
  | watching (path : RustPath)
  | unwatched (path : RustPath)
deriving DecidableEq, Repr

abbrev Tracked := List (RustPath × RustPath)

/-- `HashMap::get` on the tracked map. -/
def Tracked.get (t : Tracked) (p : RustPath) : Option RustPath :=
  (t.find? (fun e => decide (e.1 = p))).map (fun e => e.2)

/-- `HashMap::insert` on the tracked map (replacing). -/
def Tracked.insert (t : Tracked) (p v : RustPath) : Tracked :=
  (p, v) :: t.filter (fun e => decide (e.1 ≠ p))

/-- `HashMap::remove` on the tracked map. -/
def Tracked.remove (t : Tracked) (p : RustPath) : Tracked :=
  t.filter (fun e => decide (e.1 ≠ p))

/-- Result of one client message: the updated map and the reply sent
(`none` when the request is silently ignored). -/
structure WatchStep where
  tracked : Tracked
  reply : Option SysReply
deriving DecidableEq, Repr

/-- The `Watch` arm of `handle_client_message`: check the feature flag,
resolve the path through the sandbox, require the watcher, register the
canonical path (outcome `watch_ok`), insert into the map, acknowledge. -/
def handle_watch (fs : FS) (root : RustPath)
    (watch_enabled watcher_present watch_ok : Bool)
    (tracked : Tracked) (path : RustPath) : WatchStep :=
  if !watch_enabled then ⟨tracked, some (.errorMsg "file watching disabled")⟩
  else
    match resolve_path fs root path with
    | .error _ => ⟨tracked, some (.errorMsg "invalid path")⟩
    | .ok resolved =>
      if !watcher_present then ⟨tracked, some (.errorMsg "watcher unavailable")⟩
      else if !watch_ok then ⟨tracked, some (.errorMsg "watch failed")⟩
      else ⟨tracked.insert resolved path, some (.watching path)⟩

/-- The `Unwatch` arm of `handle_client_message`: resolve (silently
dropping failures); with a watcher, remove from the map (and unregister
when present) and acknowledge; without one, report it unavailable. -/
def handle_unwatch (fs : FS) (root : RustPath) (watcher_present : Bool)
    (tracked : Tracked) (path : RustPath) : WatchStep :=
  match resolve_path fs root path with
  | .error _ => ⟨tracked, none⟩
  | .ok resolved =>
    if watcher_present then ⟨tracked.remove resolved, some (.unwatched path)⟩
    else ⟨tracked, some (.errorMsg "watcher unavailable")⟩

/-- A `change` notification with its Unix-seconds timestamp. -/
structure ChangeMsg where
  path : RustPath
  timestamp : Nat
deriving DecidableEq, Repr

/-- `forward_event`, per affected path: canonicalize, then fall back
through map lookup and root-stripping on the canonical and raw paths. -/
def forward_event_rel (fs : FS) (root : RustPath) (tracked : Tracked)
    (path : RustPath) : Option RustPath :=
  let canonical := (canonicalize fs path).toOption
  (((canonical.bind (fun p => tracked.get p)).orElse
      (fun _ => canonical.bind (fun p => to_relative root p))).orElse
      (fun _ => tracked.get path)).orElse
      (fun _ => to_relative root path)

/-- `forward_event` over the affected paths of one watcher event: emit a
`change` message per path that yields a relative path; drop the rest. -/
def forward_event (fs : FS) (root : RustPath) (tracked : Tracked)
    (paths : List RustPath) (ts : Nat) : List ChangeMsg :=
  paths.filterMap
    (fun p => (forward_event_rel fs root tracked p).map (fun r => ⟨r, ts⟩))

/-- Modelled from the spec: step (i), canonicalize and look up the
tracked map. -/
def specCanonLookup (fs : FS) (tracked : Tracked) (path : RustPath) :
    Option RustPath :=
  match canonicalize fs path with
  | .ok p => tracked.get p
  | .error _ => none

/-- Modelled from the spec: step (ii), canonicalize and make relative to
the sandbox root. -/
def specCanonStrip (fs : FS) (root : RustPath) (path : RustPath) :
    Option RustPath :=
  match canonicalize fs path with
  | .ok p => to_relative root p
  | .error _ => none

/-- Modelled from the spec: step (iii), look up the raw path. -/
def specRawLookup (tracked : Tracked) (path : RustPath) : Option RustPath :=
  tracked.get path

/-- Modelled from the spec: step (iv), make the raw path relative. -/
def specRawStrip (root : RustPath) (path : RustPath) : Option RustPath :=
  to_relative root path

/-- C6: watch event forwarding.  Per affected path, the bridge's fallback
chain is exactly the spec's four ordered attempts: the first success
determines the emitted relative path, and when all four fail the path
produces no message. -/
theorem watch_event_forwarding (fs : FS) (root : RustPath) (tracked : Tracked)
    (path : RustPath) (ts : Nat) :
    (∀ r, forward_event_rel fs root tracked path = some r ↔
      (specCanonLookup fs tracked path = some r ∨
        (specCanonLookup fs tracked path = none ∧
          (specCanonStrip fs root path = some r ∨
            (specCanonStrip fs root path = none ∧
              (specRawLookup tracked path = some r ∨
                (specRawLookup tracked path = none ∧
                  specRawStrip root path = some r))))))) ∧
    (∀ r, forward_event_rel fs root tracked path = some r →
      forward_event fs root tracked [path] ts = [⟨r, ts⟩]) ∧
    (forward_event_rel fs root tracked path = none →
      forward_event fs root tracked [path] ts = []) := by
  refine ⟨?_, ?_, ?_⟩
  · intro r
    unfold forward_event_rel specCanonLookup specCanonStrip specRawLookup
      specRawStrip
    cases hc : canonicalize fs path with
    | ok p =>
      dsimp only [Except.toOption]
      cases h1 : tracked.get p with
      | some v => simp [Option.orElse, h1]
      | none =>
        cases h2 : to_relative root p with
        | some v => simp [Option.orElse, h1, h2]
        | none =>
          cases h3 : tracked.get path with
          | some v => simp [Option.orElse, h1, h2, h3]
          | none => simp [Option.orElse, h1, h2, h3]
    | error k =>
      dsimp only [Except.toOption]
      cases h3 : tracked.get path with
      | some v => simp [Option.orElse, h3]
      | none => simp [Option.orElse, h3]
  · intro r h
    unfold forward_event
    simp [h]
  · intro h
    unfold forward_event
    simp [h]

/-- C6 witness: a tracked file under `/box` produces one `change` message
carrying its tracked relative path and the given timestamp. -/
theorem watch_event_forwarding_witness :
    forward_event [(["box"], .dir), (["box", "f"], .file)] ⟨true, ["box"]⟩
      [(⟨true, ["box", "f"]⟩, ⟨false, ["f"]⟩)] [⟨true, ["box", "f"]⟩]
      1700000000 = [⟨⟨false, ["f"]⟩, 1700000000⟩] :=
  (watch_event_forwarding [(["box"], .dir), (["box", "f"], .file)]
      ⟨true, ["box"]⟩ [(⟨true, ["box", "f"]⟩, ⟨false, ["f"]⟩)]
      ⟨true, ["box", "f"]⟩ 1700000000).2.1 ⟨false, ["f"]⟩ (by decide)

/-- C7: watch failure atomicity.  Any failed watch request — feature
disabled, path resolution failure, watcher absent, or registration
failure — leaves the tracked map unchanged; the disabled and
resolution-failure cases carry the specified error replies. -/
theorem watch_failure_atomicity (fs : FS) (root : RustPath) (we wp wok : Bool)
    (tracked : Tracked) (path : RustPath) :
    ((handle_watch fs root we wp wok tracked path).reply ≠
        some (.watching path) →
      (handle_watch fs root we wp wok tracked path).tracked = tracked) ∧
    (we = false →
      handle_watch fs root we wp wok tracked path =
        ⟨tracked, some (.errorMsg "file watching disabled")⟩) ∧
    (∀ e, resolve_path fs root path = .error e → we = true →
      handle_watch fs root we wp wok tracked path =
        ⟨tracked, some (.errorMsg "invalid path")⟩) ∧
    (∀ resolved, resolve_path fs root path = .ok resolved → we = true →
      wp = false ∨ wok = false →
      (handle_watch fs root we wp wok tracked path).tracked = tracked) := by
  unfold handle_watch
  cases we with
  | false =>
    refine ⟨fun _ => rfl, fun _ => rfl, ?_, ?_⟩
    · intro e he h1
      cases h1
    · intro resolved hr h1
      cases h1
  | true =>
    simp only [Bool.not_true, Bool.false_eq_true, if_false]
    cases hr : resolve_path fs root path with
    | error e =>
      refine ⟨fun _ => rfl, ?_, fun e' he' _ => rfl, ?_⟩
      · intro h
        cases h
      · intro resolved hres
        cases hres
    | ok resolved =>
      refine ⟨?_, ?_, ?_, ?_⟩
      · cases wp with
        | false => exact fun _ => rfl
        | true =>
          cases wok with
          | false => exact fun _ => rfl
          | true => exact fun hne => absurd rfl hne
      · intro h
        cases h
      · intro e' he' h1
        cases he'
      · intro resolved' hres h1 hor
        rcases hor with h | h
        · subst h
          rfl
        · subst h
          cases wp <;> rfl

/-- C7 witness: with the feature disabled, a watch of `f` under `/box`
leaves the (empty) map unchanged and reports the feature disabled. -/
theorem watch_failure_atomicity_witness :
    ((handle_watch [(["box"], .dir), (["box", "f"], .file)] ⟨true, ["box"]⟩
        false true true [] ⟨false, ["f"]⟩).reply ≠
        some (.watching ⟨false, ["f"]⟩) →
      (handle_watch [(["box"], .dir), (["box", "f"], .file)] ⟨true, ["box"]⟩
        false true true [] ⟨false, ["f"]⟩).tracked = []) ∧
    handle_watch [(["box"], .dir), (["box", "f"], .file)] ⟨true, ["box"]⟩
      false true true [] ⟨false, ["f"]⟩ =
      ⟨[], some (.errorMsg "file watching disabled")⟩ :=
  ⟨(watch_failure_atomicity [(["box"], .dir), (["box", "f"], .file)]
      ⟨true, ["box"]⟩ false true true [] ⟨false, ["f"]⟩).1,
   (watch_failure_atomicity [(["box"], .dir), (["box", "f"], .file)]
      ⟨true, ["box"]⟩ false true true [] ⟨false, ["f"]⟩).2.1 rfl⟩

theorem Tracked.remove_of_absent {t : Tracked} {p : RustPath}
    (h : t.get p = none) : t.remove p = t := by
  unfold Tracked.get at h
  rw [Option.map_eq_none'] at h
  rw [List.find?_eq_none] at h
  unfold Tracked.remove
  apply List.filter_eq_self.mpr
  intro a ha
  have := h a ha
  simp only [decide_eq_true_eq] at this ⊢
  exact this

/-- C10 counterexample: a request whose path resolves inside the sandbox
is answered with `watcher unavailable` — not `unwatched` — when the
connection has no watcher (feature disabled or watcher init failure). -/
theorem unwatch_reply_cex :
    resolve_path [(["box"], .dir)] ⟨true, ["box"]⟩ ⟨false, []⟩ =
      .ok ⟨true, ["box"]⟩ ∧
    (handle_unwatch [(["box"], .dir)] ⟨true, ["box"]⟩ false [] ⟨false, []⟩).reply =
      some (.errorMsg "watcher unavailable") ∧
    (handle_unwatch [(["box"], .dir)] ⟨true, ["box"]⟩ false [] ⟨false, []⟩).reply ≠
      some (.unwatched ⟨false, []⟩) := by
  refine ⟨by decide, by decide, by decide⟩

/-- C10 (amended): when a watcher is present, an unwatch whose path
resolves inside the sandbox is acknowledged with `unwatched` even if the
canonical path was never tracked (the map then being left unchanged);
without a watcher it is answered with error `watcher unavailable` and the
map is unchanged; only a path-resolution failure is silently ignored. -/
theorem unwatch_behavior (fs : FS) (root : RustPath) (tracked : Tracked)
    (path : RustPath) :
    (∀ resolved, resolve_path fs root path = .ok resolved →
      (handle_unwatch fs root true tracked path).reply =
        some (.unwatched path) ∧
      (tracked.get resolved = none →
        (handle_unwatch fs root true tracked path).tracked = tracked) ∧
      handle_unwatch fs root false tracked path =
        ⟨tracked, some (.errorMsg "watcher unavailable")⟩) ∧
    (∀ e, resolve_path fs root path = .error e → ∀ wp,
      handle_unwatch fs root wp tracked path = ⟨tracked, none⟩) := by
  constructor
  · intro resolved hres
    unfold handle_unwatch
    rw [hres]
    refine ⟨rfl, ?_, rfl⟩
    intro habs
    dsimp only
    rw [if_pos rfl]
    exact Tracked.remove_of_absent habs
  · intro e he wp
    unfold handle_unwatch
    rw [he]

/-- C10 amended-claim witness: unwatching `f` under `/box` when nothing is
tracked still acknowledges and leaves the empty map unchanged. -/
theorem unwatch_behavior_witness :
    ((handle_unwatch [(["box"], .dir), (["box", "f"], .file)] ⟨true, ["box"]⟩
        true [] ⟨false, ["f"]⟩).reply = some (.unwatched ⟨false, ["f"]⟩) ∧
      (Tracked.get [] ⟨true, ["box", "f"]⟩ = none →
        (handle_unwatch [(["box"], .dir), (["box", "f"], .file)]
          ⟨true, ["box"]⟩ true [] ⟨false, ["f"]⟩).tracked = []) ∧
      handle_unwatch [(["box"], .dir), (["box", "f"], .file)] ⟨true, ["box"]⟩
        false [] ⟨false, ["f"]⟩ =
        ⟨[], some (.errorMsg "watcher unavailable")⟩) ∧
    handle_unwatch [(["box"], .dir)] ⟨true, ["box"]⟩ true []
      ⟨false, ["missing"]⟩ = ⟨[], none⟩ :=
  ⟨(unwatch_behavior [(["box"], .dir), (["box", "f"], .file)] ⟨true, ["box"]⟩
      [] ⟨false, ["f"]⟩).1 ⟨true, ["box", "f"]⟩ (by decide),
   (unwatch_behavior [(["box"], .dir)] ⟨true, ["box"]⟩ [] ⟨false, ["missing"]⟩).2
      (.Io .notFound) (by decide) true⟩

/-! ## Login handler (`http/login.rs`)

The Argon2 collaborators are external: the outcome of parsing the stored
hash and of verifying the password are explicit parameters.  The fresh
session id is the hyphenated rendering of a v4 UUID over explicit random
bits, as produced by `Uuid::new_v4().to_string()`. -/

/-- Outcome of `argon2.verify_password`: success, wrong password
(`Error::Password`), or any other verification error. -/
inductive PwVerify
  | ok
  | errPassword
  | errOther
deriving DecidableEq, Repr

/-- A successful login response: the `Set-Cookie` header value and the
`{"ok":true}` body flag. -/
structure LoginOk where
  setCookie : String
  body_ok : Bool
deriving DecidableEq, Repr

/-- Lowercase hex digit of a value below 16. -/
def hexDigit (n : Nat) : Char :=
  if n < 10 then Char.ofNat (48 + n) else Char.ofNat (87 + n)

/-- Two lowercase hex digits of a byte. -/
def byteHex (b : Nat) : List Char :=
  [hexDigit (b / 16 % 16), hexDigit (b % 16)]

/-- `Uuid::new_v4().to_string()` over 128 random bits `r`: byte 6 carries
version nibble 4, byte 8 the variant bits `10`, and the 16 bytes are
rendered as lowercase hex in hyphenated 8-4-4-4-12 form. -/
def uuidV4String (r : Nat) : String :=
  let byte := fun (i : Nat) => r / 256 ^ (15 - i) % 256
  let b := fun (i : Nat) =>
    if i = 6 then byte 6 % 16 + 64
    else if i = 8 then byte 8 % 64 + 128
    else byte i
  let hex := fun (is : List Nat) => is.flatMap (fun i => byteHex (b i))
  ⟨hex [0, 1, 2, 3] ++ '-' ::
    (hex [4, 5] ++ '-' ::
      (hex [6, 7] ++ '-' ::
        (hex [8, 9] ++ '-' :: hex [10, 11, 12, 13, 14, 15])))⟩

/-- `login_handler`: fail on an unparsable stored hash, then on password
verification; on success create a session (fresh id `sid`, instant `now`)
and reply `ok: true` with the session cookie. -/
def login_handler (hash_ok : Bool) (verify : PwVerify) (ttl_minutes : Nat)
    (m : SessionMap) (sid : String) (now : Nat) :
    Except AppError LoginOk × SessionMap :=
  if !hash_ok then (.error (.Internal "invalid password hash"), m)
  else
    match verify with
    | .errPassword => (.error .Unauthorized, m)
    | .errOther => (.error (.Internal "password verification failed"), m)
    | .ok =>
      let ttl_seconds := ttl_minutes * 60
      (.ok ⟨"session=" ++ sid ++ "; Path=/; HttpOnly; SameSite=Strict; Max-Age="
          ++ toString ttl_seconds, true⟩,
       (create_session ttl_seconds m sid now).1)

/-- C8 (amended): the login contract.  A correct password yields `ok` with
cookie `session=<36-char hyphenated UUID>; Path=/; HttpOnly;
SameSite=Strict; Max-Age=<ttl_minutes*60>`; a wrong password yields 401
with no cookie and no store change; an unparsable stored hash yields 500
regardless of the password. -/
theorem login_contract (ttl_minutes : Nat) (m : SessionMap) (sid : String)
    (now : Nat) (r : Nat) (v : PwVerify) :
    (login_handler true .ok ttl_minutes m (uuidV4String r) now).1 =
      .ok ⟨"session=" ++ uuidV4String r ++
        "; Path=/; HttpOnly; SameSite=Strict; Max-Age=" ++
        toString (ttl_minutes * 60), true⟩ ∧
    (uuidV4String r).length = 36 ∧
    login_handler true .errPassword ttl_minutes m sid now =
      (.error .Unauthorized, m) ∧
    AppError.statusCode .Unauthorized = 401 ∧
    login_handler false v ttl_minutes m sid now =
      (.error (.Internal "invalid password hash"), m) ∧
    AppError.statusCode (.Internal "invalid password hash") = 500 := by
  refine ⟨rfl, ?_, ?_, rfl, rfl, rfl⟩
  · rfl
  · cases v <;> rfl

/-- C8 counterexample: at randomness 0 the produced cookie token is the
36-character string `00000000-0000-4000-8000-000000000000`; no
32-character token can make up that cookie, so the claimed
`session=<32-hex>` shape is wrong. -/
theorem login_cookie_cex :
    (login_handler true .ok 30 [] (uuidV4String 0) 0).1 =
      .ok ⟨"session=00000000-0000-4000-8000-000000000000; Path=/; HttpOnly; SameSite=Strict; Max-Age=1800",
        true⟩ ∧
    ¬ ∃ tok : String, tok.length = 32 ∧
      "session=00000000-0000-4000-8000-000000000000; Path=/; HttpOnly; SameSite=Strict; Max-Age=1800" =
        "session=" ++ tok ++ "; Path=/; HttpOnly; SameSite=Strict; Max-Age=1800" := by
  constructor
  · decide
  · rintro ⟨tok, hlen, heq⟩
    have hl := congrArg String.length heq
    rw [String.length_append, String.length_append, hlen] at hl
    revert hl
    decide

/-- C9: a failed login leaves the session store unchanged — every error
path of `login_handler` returns before `create_session` runs. -/
theorem login_failure_no_session (hash_ok : Bool) (verify : PwVerify)
    (ttl_minutes : Nat) (m : SessionMap) (sid : String) (now : Nat) :
    ∀ e, (login_handler hash_ok verify ttl_minutes m sid now).1 = .error e →
      (login_handler hash_ok verify ttl_minutes m sid now).2 = m := by
  intro e h
  cases hash_ok with
  | false => rfl
  | true =>
    cases verify with
    | ok => simp [login_handler] at h
    | errPassword => rfl
    | errOther => rfl

/-- C9 witness: a login with an unparsable stored hash leaves the empty
store empty. -/
theorem login_failure_no_session_witness :
    (login_handler false .ok 30 [] "sid" 0).2 = [] :=
  login_failure_no_session false .ok 30 [] "sid" 0
    (.Internal "invalid password hash") (by decide)

end LiteTerm
